import Mathlib

/-!
Shallow embedding of the Filter & Crosstab Query Engine of the survey
explorer (`src/js/app.js`).  JavaScript strings are Lean `String`s, JS
plain objects used as keyed maps (`chartFilters`) and ES `Map` objects
are association lists kept in insertion order, SQL query results are
lists of rows, and nullable SQL column values are `Option String`.
-/

namespace SurveyApp

/-- The single-quote character (ASCII 39). -/
def squote : Char := Char.ofNat 39

/-- A one-character string holding a single quote. -/
def squoteStr : String := String.mk [squote]

/-- Embeds `value.replace(/'/g, "''")` from `getWhereClause`
(`app.js` lines 277 and 284): every single-quote character is doubled,
all other characters are kept unchanged. -/
def sqlEscape (s : String) : String :=
  String.mk (s.toList.flatMap (fun c => if c = squote then [c, c] else [c]))

/-- The static `filterConfig` object (`app.js` lines 230-236), mapping a
sidebar select-element id to the database column it filters. -/
def filterConfig : List (String × String) :=
  [("filter-role", "role"),
   ("filter-org-size", "org_size"),
   ("filter-industry", "industry"),
   ("filter-region", "region"),
   ("filter-ai-usage", "ai_usage_frequency")]

/-- One pushed condition string `` `${column} = '${escapedValue}'` ``
(`app.js` lines 278 and 285). -/
def eqCondition (col v : String) : String :=
  col ++ " = " ++ squoteStr ++ sqlEscape v ++ squoteStr

/-- The sidebar half of `getWhereClause` (`app.js` lines 273-280): for
each `filterConfig` entry the DOM select value is read (modelled as the
function `sb`; the empty string means no selection) and, when non-empty,
an equality condition is pushed. -/
def sidebarConditions (sb : String → String) : List String :=
  filterConfig.filterMap
    (fun p => if sb p.1 = "" then none else some (eqCondition p.2 (sb p.1)))

/-- The chart-filter half of `getWhereClause` (`app.js` lines 283-286):
one condition per entry of the `chartFilters` object, in insertion
order. -/
def chartConditions (cf : List (String × String)) : List String :=
  cf.map (fun p => eqCondition p.1 p.2)

/-- Embeds `conditions.join(' AND ')` (`app.js` line 288). -/
def joinAnd : List String → String
  | [] => ""
  | [c] => c
  | c :: rest => c ++ " AND " ++ joinAnd rest

/-- Embeds `getWhereClause` (`app.js` lines 269-289): collect sidebar and
chart-filter conditions and return either the empty string or a
`WHERE`-prefixed AND-joined clause. -/
def getWhereClause (sb : String → String) (cf : List (String × String)) : String :=
  if (sidebarConditions sb ++ chartConditions cf).length > 0 then
    "WHERE " ++ joinAnd (sidebarConditions sb ++ chartConditions cf)
  else ""

/-- The caller pattern
`` `${whereClause} ${whereClause ? 'AND' : 'WHERE'} ${extra}` `` used by
`renderBarChart` (line 554) and `updateCrosstab` (lines 1321, 1335,
1349, 1362, 1391, 1400, 1411, 1420) to append one more condition to the
clause returned by `getWhereClause`. -/
def extendWhereClause (w extra : String) : String :=
  w ++ " " ++ (if w = "" then "WHERE" else "AND") ++ " " ++ extra

/-! JS plain-object operations for the `chartFilters` object: string
keys in insertion order, at most one entry per key.  Assigning to an
existing key keeps its position; assigning a fresh key appends. -/

/-- Reading `o[k]`: `some` value, or `none` when the key is absent. -/
def objGet (o : List (String × String)) (k : String) : Option String :=
  (o.find? (fun p => p.1 = k)).map (fun p => p.2)

/-- The JS `delete o[k]`. -/
def objDelete (o : List (String × String)) (k : String) : List (String × String) :=
  o.filter (fun p => ¬ p.1 = k)

/-- The JS assignment `o[k] = v`. -/
def objSet (o : List (String × String)) (k v : String) : List (String × String) :=
  if (o.find? (fun p => p.1 = k)).isSome then
    o.map (fun p => if p.1 = k then (k, v) else p)
  else o ++ [(k, v)]

/-- Embeds `addChartFilter` (`app.js` lines 292-302), restricted to its
effect on the `chartFilters` object: clicking the value that is already
active for the column removes the entry, otherwise the value is set. -/
def addChartFilter (o : List (String × String)) (col v : String) :
    List (String × String) :=
  if objGet o col = some v then objDelete o col else objSet o col v

/-- The columns used by the twelve bar charts (`chartConfig`,
`app.js` lines 480-493); chart-bar clicks call `addChartFilter` with one
of these columns. -/
def chartConfigColumns : List String :=
  ["role", "org_size", "industry", "ai_usage_frequency",
   "storage_environment", "architecture_trend", "team_growth_2026",
   "biggest_bottleneck", "region", "modeling_approach",
   "modeling_pain_points", "education_topic"]

/-- The keys of `getColumnLabel` (`app.js` lines 1587-1606), covering
every column offered by the crosstab dimension selects. -/
def crosstabColumns : List String :=
  ["role", "org_size", "industry", "region", "ai_usage_frequency",
   "ai_adoption", "storage_environment", "orchestration",
   "modeling_approach", "modeling_pain_points", "architecture_trend",
   "team_growth_2026", "biggest_bottleneck", "team_focus",
   "ai_helps_with", "education_topic"]

/-- The static allowlist of column identifiers appearing anywhere in the
configuration: sidebar filter columns, chart columns and crosstab
columns. -/
def allowedColumns : List String :=
  filterConfig.map (fun p => p.2) ++ chartConfigColumns ++ crosstabColumns

/-- Embeds the chart-filter part of `restoreStateFromUrl`
(`app.js` lines 139-150) and of `restoreFiltersFromLocalStorage`
(lines 428-431): every `(column, value)` entry of the parsed persisted
object is copied into `chartFilters` unconditionally - no allowlist or
known-value check is applied to either component. -/
def restoreChartFilters (parsed : List (String × String))
    (cf : List (String × String)) : List (String × String) :=
  parsed.foldl (fun acc p => objSet acc p.1 p.2) cf

/-! Embedding of `escapeHtml` (`app.js` lines 2465-2473). -/

/-- The JS `str.replace(/c/g, rep)` for a single character pattern and a
replacement free of `$` patterns: every occurrence of `c` becomes
`rep`, all other characters are kept. -/
def replaceAllChar (c : Char) (rep : List Char) (l : List Char) : List Char :=
  l.flatMap (fun ch => if ch = c then rep else [ch])

/-- Embeds `escapeHtml`: `null`/`undefined` (both modelled as `none`)
yield the empty string; otherwise `&`, `<`, `>`, `"` and the single
quote are replaced by their HTML entities, in exactly the source's
order (`&` first). -/
def escapeHtml (input : Option String) : String :=
  match input with
  | none => ""
  | some s =>
      String.mk
        (replaceAllChar squote "&#039;".toList
          (replaceAllChar '"' "&quot;".toList
            (replaceAllChar '>' "&gt;".toList
              (replaceAllChar '<' "&lt;".toList
                (replaceAllChar '&' "&amp;".toList s.toList)))))

/-! Crosstab data model (`app.js` lines 1270-1617).  A database record
is modelled by its two pivot-column values, each nullable; the shared
`WHERE` predicate of the three crosstab queries is an abstract boolean
predicate on records. -/

/-- `MULTI_SELECT_COLUMNS` (`app.js` line 1272). -/
def MULTI_SELECT_COLUMNS : List String :=
  ["modeling_pain_points", "team_focus", "ai_helps_with"]

/-- Embeds `isMultiSelect` (`app.js` lines 1279-1281). -/
def isMultiSelect (column : String) : Bool :=
  MULTI_SELECT_COLUMNS.contains column

/-- A record restricted to the two pivot columns: `(row value, column
value)`, where `none` is SQL `NULL`. -/
abbrev SurveyRec := Option String × Option String

/-- Worker for `dedupFirst`: `seen` holds the elements already
emitted. -/
def dedupFirstAux {α : Type} [DecidableEq α] (seen : List α) :
    List α → List α
  | [] => []
  | x :: xs =>
      if x ∈ seen then dedupFirstAux seen xs
      else x :: dedupFirstAux (x :: seen) xs

/-- Insertion-order deduplication: the distinct elements of a list in
first-occurrence order (the key order of a SQL `GROUP BY` result and of
a JS `Map` built from it). -/
def dedupFirst {α : Type} [DecidableEq α] (l : List α) : List α :=
  dedupFirstAux [] l

/-- Worker for `mapNormalize`: `seen` holds the keys already
emitted. -/
def mapNormalizeAux {α β : Type} [DecidableEq α] (seen : List α) :
    List (α × β) → List (α × β)
  | [] => []
  | p :: rest =>
      if p.1 ∈ seen then mapNormalizeAux seen rest
      else
        (p.1, ((rest.filter (fun q => q.1 = p.1)).map (fun q => q.2)).getLastD p.2) ::
          mapNormalizeAux (p.1 :: seen) rest

/-- Normalization performed by `new Map(entries)`: at most one entry per
key, a duplicated key keeps its first position and its last value.  For
the duplicate-free key lists produced by `GROUP BY` this is the
identity. -/
def mapNormalize {α β : Type} [DecidableEq α] (l : List (α × β)) :
    List (α × β) :=
  mapNormalizeAux [] l

/-- `m.get(k)` on an entries list, defaulting to 0 (the `|| 0` used for
cell lookups). -/
def lookupCount {α : Type} [DecidableEq α] (l : List (α × Nat)) (k : α) : Nat :=
  ((l.find? (fun p => p.1 = k)).map (fun p => p.2)).getD 0

/-- Stable descending insertion by the count component, modelling the
`ORDER BY total DESC` of the two marginal-total queries (ties keep
their relative order; SQL leaves tie order unspecified, so this is one
concrete refinement). -/
def insertDesc {α : Type} (x : α × Nat) : List (α × Nat) → List (α × Nat)
  | [] => [x]
  | y :: ys => if y.2 < x.2 then x :: y :: ys else y :: insertDesc x ys

/-- Sort a counted list descending by count, stably. -/
def sortByCountDesc {α : Type} (l : List (α × Nat)) : List (α × Nat) :=
  l.foldl (fun acc x => insertDesc x acc) []

/-- The number of occurrences of `a` in `l` (a fixed-instance version
of `List.count`). -/
def countOcc {γ : Type} [DecidableEq γ] (a : γ) (l : List γ) : Nat :=
  l.countP (fun x => decide (x = a))

/-- `COUNT(*) GROUP BY` over a list of grouping keys: the distinct keys
in first-occurrence order, each with its number of occurrences. -/
def groupCounts {α : Type} [DecidableEq α] (l : List α) : List (α × Nat) :=
  (dedupFirst l).map (fun k => (k, countOcc k l))

/-- Projects a record to its `(row value, column value)` pair when both
are non-NULL. -/
def pairFn (x : SurveyRec) : Option (String × String) :=
  match x.1, x.2 with
  | some a, some b => some (a, b)
  | _, _ => none

/-- The grouping pairs of the detail query (`app.js` lines 1353-1366,
non-multi-valued branch): records passing the shared predicate with
both pivot values non-NULL, projected to the value pair. -/
def recordPairs (db : List SurveyRec) (pred : SurveyRec → Bool) :
    List (String × String) :=
  (db.filter pred).filterMap pairFn

/-- The grouping values of a marginal-total query (`app.js` lines
1395-1404 and 1415-1424): records passing the shared predicate with the
one projected value non-NULL. -/
def recordVals (db : List SurveyRec) (pred : SurveyRec → Bool)
    (proj : SurveyRec → Option String) : List String :=
  (db.filter pred).filterMap proj

/-- The detail-query result set.  The source's `ORDER BY row_val,
col_val` is dropped: the result is only ever poured into a keyed `Map`,
so its order is immaterial (spec section 4.3 step 2 says the same). -/
def detailQueryRows (db : List SurveyRec) (pred : SurveyRec → Bool) :
    List ((String × String) × Nat) :=
  groupCounts (recordPairs db pred)

/-- A marginal-total query result: grouped counts ordered by total
descending (`ORDER BY total DESC`). -/
def marginalQueryRows (db : List SurveyRec) (pred : SurveyRec → Bool)
    (proj : SurveyRec → Option String) : List (String × Nat) :=
  sortByCountDesc (groupCounts (recordVals db pred proj))

/-- The assembled crosstab: the fields of `crosstabData` (`app.js`
lines 1431-1450) that the claims are about.  `new Map(list)` is
`mapNormalize`, `Array.from(m.keys())` is the key projection, and
`grandTotal` is the reduce-sum of the row-totals map's values. -/
structure CrosstabData where
  rows : List String
  cols : List String
  cells : List ((String × String) × Nat)
  rowTotals : List (String × Nat)
  colTotals : List (String × Nat)
  grandTotal : Nat
deriving DecidableEq, Repr

/-- Embeds the assembly in `updateCrosstab` (`app.js` lines 1431-1450)
from the three query results. -/
def assembleCrosstab (detail : List ((String × String) × Nat))
    (rowT colT : List (String × Nat)) : CrosstabData :=
  { rows := (mapNormalize rowT).map (fun p => p.1)
    cols := (mapNormalize colT).map (fun p => p.1)
    cells := mapNormalize detail
    rowTotals := mapNormalize rowT
    colTotals := mapNormalize colT
    grandTotal := ((mapNormalize rowT).map (fun p => p.2)).sum }

/-- The whole query-and-assemble pipeline of `updateCrosstab` for a
non-multi-valued dimension pair, over the record list visible to the
analytical engine. -/
def crosstabFromDb (db : List SurveyRec) (pred : SurveyRec → Bool) :
    CrosstabData :=
  assembleCrosstab (detailQueryRows db pred)
    (marginalQueryRows db pred (fun x => x.1))
    (marginalQueryRows db pred (fun x => x.2))

/-- `matrix.get(row + sep + col) || 0` (`app.js` line 1477 and 1538). -/
def cellCount (d : CrosstabData) (r c : String) : Nat :=
  lookupCount d.cells (r, c)

/-- `rowTotals.get(row)` with default 0. -/
def rowTotalOf (d : CrosstabData) (r : String) : Nat :=
  lookupCount d.rowTotals r

/-- `colTotals.get(col)` with default 0. -/
def colTotalOf (d : CrosstabData) (c : String) : Nat :=
  lookupCount d.colTotals c

/-- The sum of the cell counts of row `r` across all columns of the
Matrix. -/
def sumRowCells (d : CrosstabData) (r : String) : Nat :=
  (d.cols.map (fun c => cellCount d r c)).sum

/-- The sum of the cell counts of column `c` down all rows of the
Matrix. -/
def sumColCells (d : CrosstabData) (c : String) : Nat :=
  (d.rows.map (fun r => cellCount d r c)).sum

/-! Crosstab view state, sort state and the update step. -/

/-- The crosstab metric mode (`crosstab-metric` select). -/
inductive Metric where
  | count
  | row_pct
  | col_pct
deriving DecidableEq, Repr

/-- A sort direction (`crosstabSortDir`). -/
inductive SortDir where
  | asc
  | desc
deriving DecidableEq, Repr

/-- The queries `updateCrosstab` can issue to the analytical engine. -/
inductive QuerySpec where
  | crosstabDetail (rowCol colCol whereClause : String) (rowMulti colMulti : Bool)
  | marginalTotals (col whereClause : String) (multi : Bool)
deriving DecidableEq, Repr

/-- The possible contents of the `crosstab-results` container. -/
inductive ContainerContent where
  | initial
  | invalidPivotPlaceholder
  | noDataPlaceholder
  | renderedTable (d : CrosstabData) (sortCol : String) (dir : SortDir) (m : Metric)
deriving DecidableEq, Repr

/-- The crosstab-related page state: the results container plus the
module-level variables `crosstabData`, `crosstabSortCol` and
`crosstabSortDir` (`app.js` lines 1274-1277). -/
structure CrosstabView where
  container : ContainerContent
  data : Option CrosstabData
  sortCol : String
  sortDir : SortDir
deriving DecidableEq, Repr

/-- The three result sets one generation of crosstab queries resolves
to. -/
structure EngineResponses where
  detail : List ((String × String) × Nat)
  rowT : List (String × Nat)
  colT : List (String × Nat)
deriving DecidableEq, Repr

/-- One synchronous run of `updateCrosstab` (`app.js` lines 1283-1462)
given the responses the engine returns for its queries.  Returns the
new view and the list of queries issued: none for an invalid pivot
(`rowCol === colCol`, lines 1289-1300, which only rewrites the results
container and returns), only the detail query when its result is empty
(lines 1371-1381), and the detail plus the two marginal-total queries
otherwise.  On assembly the sort state is reset to row-total descending
(lines 1452-1454). -/
def updateCrosstabStep (rowCol colCol : String) (metric : Metric)
    (whereClause : String) (resp : EngineResponses) (old : CrosstabView) :
    CrosstabView × List QuerySpec :=
  if rowCol = colCol then
    ({ old with container := ContainerContent.invalidPivotPlaceholder }, [])
  else
    let detailQ := QuerySpec.crosstabDetail rowCol colCol whereClause
      (isMultiSelect rowCol) (isMultiSelect colCol)
    if resp.detail = [] then
      ({ old with container := ContainerContent.noDataPlaceholder }, [detailQ])
    else
      let d := assembleCrosstab resp.detail resp.rowT resp.colT
      ({ container := ContainerContent.renderedTable d "_total" SortDir.desc metric
         data := some d
         sortCol := "_total"
         sortDir := SortDir.desc },
       [detailQ,
        QuerySpec.marginalTotals rowCol whereClause (isMultiSelect rowCol),
        QuerySpec.marginalTotals colCol whereClause (isMultiSelect colCol)])

/-- The sort-state transition of the column-header click handler
(`app.js` lines 1572-1584): clicking the active key toggles the
direction, clicking another key activates it descending. -/
def clickSortHeader (sortCol : String) (dir : SortDir) (k : String) :
    String × SortDir :=
  if sortCol = k then
    (sortCol, if dir = SortDir.desc then SortDir.asc else SortDir.desc)
  else (k, SortDir.desc)

/-- The whole click handler: it updates the sort state, re-renders the
stored `crosstabData` into the container, and issues no query
(`renderCrosstabTable` never calls `conn.query`). -/
def handleSortClick (v : CrosstabView) (metric : Metric) (k : String) :
    CrosstabView × List QuerySpec :=
  match v.data with
  | none => (v, [])
  | some d =>
      let st := clickSortHeader v.sortCol v.sortDir k
      ({ v with
          sortCol := st.1
          sortDir := st.2
          container := ContainerContent.renderedTable d st.1 st.2 metric }, [])

/-! Asynchronous arrival model for the crosstab responses.  The source
tags no query with a generation counter; each `updateCrosstab`
invocation renders its own responses whenever they resolve, so
overlapping invocations are applied in arrival order. -/

/-- A resolved crosstab query batch together with the issuance index of
the `updateCrosstab` invocation that sent it.  The index is
specification-level bookkeeping only: nothing in the source carries
it. -/
structure TaggedResponse where
  gen : Nat
  resp : EngineResponses
deriving DecidableEq, Repr

/-- What the tail of `updateCrosstab` does when its responses arrive
(`app.js` lines 1371-1456): unconditionally overwrite the container and
the stored data - there is no staleness check of any kind. -/
def applyArrivedResponse (metric : Metric) (v : CrosstabView)
    (r : TaggedResponse) : CrosstabView :=
  if r.resp.detail = [] then
    { v with container := ContainerContent.noDataPlaceholder }
  else
    let d := assembleCrosstab r.resp.detail r.resp.rowT r.resp.colT
    { container := ContainerContent.renderedTable d "_total" SortDir.desc metric
      data := some d
      sortCol := "_total"
      sortDir := SortDir.desc }

/-- Fold the arrived responses over the view in arrival order. -/
def processArrivals (metric : Metric) (v : CrosstabView)
    (arrivals : List TaggedResponse) : CrosstabView :=
  arrivals.foldl (applyArrivedResponse metric) v

/-- The crosstab view before any update: empty container, no stored
data.  The source initializes `crosstabSortCol` to `null`, which its
comment glosses as sort-by-row-total; the `"_total"` sentinel plays
that role here. -/
def initialCrosstabView : CrosstabView :=
  { container := ContainerContent.initial
    data := none
    sortCol := "_total"
    sortDir := SortDir.desc }

/-- A sample non-empty response batch (used as the earlier-issued
generation in the staleness analysis). -/
def respOlder : EngineResponses :=
  { detail := [(("A", "X"), 1)], rowT := [("A", 1)], colT := [("X", 1)] }

/-- A second, different sample response batch (the later-issued
generation). -/
def respNewer : EngineResponses :=
  { detail := [(("B", "Y"), 2)], rowT := [("B", 2)], colT := [("Y", 2)] }

/-! Heatmap mapper (`app.js` lines 1546-1551 and 1608-1617), over ℚ. -/

/-- `maxValue > 0 ? value / maxValue : 0` (line 1547). -/
def intensity (value maxValue : ℚ) : ℚ :=
  if 0 < maxValue then value / maxValue else 0

/-- `minAlpha + (intensity * (maxAlpha - minAlpha))` with
`minAlpha = 0.15`, `maxAlpha = 0.85` (lines 1612-1614). -/
def heatAlpha (i : ℚ) : ℚ :=
  15 / 100 + i * (85 / 100 - 15 / 100)

/-- `getHeatmapColor` (lines 1608-1617): `none` models the string
`transparent`, `some a` models `rgba(88, 166, 255, a)`. -/
def getHeatmapColor (i : ℚ) : Option ℚ :=
  if i = 0 then none else some (heatAlpha i)

/-- `intensity > 0.5 ? '#ffffff' : 'var(--color-text-primary)'`
(line 1549): `true` is the high-contrast white foreground. -/
def textHighContrast (i : ℚ) : Bool :=
  decide (1 / 2 < i)

/-! Helper lemmas about the JS-object operations. -/

theorem objGet_objDelete (o : List (String × String)) (k : String) :
    objGet (objDelete o k) k = none := by
  induction o with
  | nil => rfl
  | cons p rest ih =>
      by_cases h : p.1 = k
      · simpa [objDelete, List.filter_cons, h] using ih
      · simp only [objDelete, objGet, List.filter_cons, h, List.find?] at ih ⊢
        simp [h, ih]

theorem objGet_objSet_of_none (o : List (String × String)) (k v : String)
    (h : objGet o k = none) : objGet (objSet o k v) k = some v := by
  have hfind : o.find? (fun p => p.1 = k) = none := by
    unfold objGet at h
    cases hf : o.find? (fun p => p.1 = k) with
    | none => rfl
    | some p => rw [hf] at h; simp at h
  unfold objSet
  rw [hfind]
  simp only [Option.isSome_none, Bool.false_eq_true, if_false]
  unfold objGet
  rw [List.find?_append, hfind]
  simp [List.find?]

theorem find?_map_replace (o : List (String × String)) (k v : String)
    (h : (o.find? (fun p => p.1 = k)).isSome) :
    (o.map (fun p => if p.1 = k then (k, v) else p)).find? (fun p => p.1 = k) =
      some (k, v) := by
  induction o with
  | nil => simp at h
  | cons p rest ih =>
      by_cases hp : p.1 = k
      · simp [List.find?, hp]
      · have h2 : (rest.find? (fun p => p.1 = k)).isSome := by
          simpa [List.find?, hp] using h
        simpa [List.find?, hp] using ih h2

theorem objGet_objSet_of_isSome (o : List (String × String)) (k v : String)
    (h : (objGet o k).isSome) : objGet (objSet o k v) k = some v := by
  have hfind : (o.find? (fun p => p.1 = k)).isSome := by
    unfold objGet at h
    cases hf : o.find? (fun p => p.1 = k) with
    | none => rw [hf] at h; simp at h
    | some p => simp
  unfold objSet
  rw [if_pos hfind]
  unfold objGet
  rw [find?_map_replace o k v hfind]
  rfl

/-- C2 (counterexample): with the chart filter for `role` previously set
to `B`, clicking `(role, A)` twice leaves `role` unfiltered instead of
restoring `B`: the first click replaces `B` by `A` and the second click
toggles `A` off. -/
theorem addChartFilter_double_toggle_counterexample :
    objGet [("role", "B")] "role" = some "B" ∧
    objGet (addChartFilter (addChartFilter [("role", "B")] "role" "A") "role" "A")
      "role" = none := by
  constructor <;> rfl

/-- C2 (amended): calling `addChartFilter` twice with the same
`(dimension, value)` pair restores the dimension's prior entry when the
dimension was previously unfiltered or already held the clicked value;
when it previously held a different value, the second call leaves the
dimension unfiltered rather than restoring the prior value. -/
theorem addChartFilter_double_toggle_amended (o : List (String × String))
    (d v : String) :
    (objGet o d = none ∨ objGet o d = some v →
      objGet (addChartFilter (addChartFilter o d v) d v) d = objGet o d) ∧
    (∀ v₂, objGet o d = some v₂ → ¬ v₂ = v →
      objGet (addChartFilter (addChartFilter o d v) d v) d = none) := by
  constructor
  · rintro (h | h)
    · have h1 : addChartFilter o d v = objSet o d v := by
        unfold addChartFilter
        rw [h]
        simp
      have h2 : objGet (objSet o d v) d = some v := objGet_objSet_of_none o d v h
      rw [h1]
      unfold addChartFilter
      rw [h2, if_pos rfl, objGet_objDelete, h]
    · have h1 : addChartFilter o d v = objDelete o d := by
        unfold addChartFilter
        rw [h]
        simp
      have h2 : objGet (objDelete o d) d = none := objGet_objDelete o d
      rw [h1]
      unfold addChartFilter
      rw [h2]
      simp only [reduceCtorEq, if_false]
      rw [objGet_objSet_of_none _ d v h2, h]
  · intro v₂ hv₂ hne
    have h1 : addChartFilter o d v = objSet o d v := by
      unfold addChartFilter
      rw [hv₂]
      simp [Option.some_inj, fun h => hne h]
    have h2 : objGet (objSet o d v) d = some v :=
      objGet_objSet_of_isSome o d v (by rw [hv₂]; rfl)
    rw [h1]
    unfold addChartFilter
    rw [h2, if_pos rfl, objGet_objDelete]

/-- C2 witness: the amended theorem applied at the concrete states of
the counterexample discussion: toggling `(role, A)` twice from the
unfiltered state restores `none`, and from prior value `B` the failing
branch ends unfiltered. -/
theorem addChartFilter_double_toggle_amended_witness :
    objGet (addChartFilter (addChartFilter [] "role" "A") "role" "A") "role" =
      objGet [] "role" ∧
    objGet (addChartFilter (addChartFilter [("role", "B")] "role" "A") "role" "A")
      "role" = none :=
  ⟨(addChartFilter_double_toggle_amended [] "role" "A").1 (Or.inl rfl),
   (addChartFilter_double_toggle_amended [("role", "B")] "role" "A").2 "B" rfl
     (by decide)⟩

/-! Helper lemmas about the query-builder strings. -/

theorem where_append_ne_empty (x : String) : ¬ ("WHERE " ++ x) = "" := by
  intro h
  have hl := congrArg String.length h
  rw [String.length_append] at hl
  have h6 : ("WHERE " : String).length = 6 := rfl
  have h0 : ("" : String).length = 0 := rfl
  rw [h6, h0] at hl
  omega

theorem joinAnd_append_singleton (l : List String) (e : String) (h : ¬ l = []) :
    joinAnd (l ++ [e]) = joinAnd l ++ " AND " ++ e := by
  induction l with
  | nil => exact absurd rfl h
  | cons c rest ih =>
      cases rest with
      | nil => simp [joinAnd]
      | cons c₂ rest₂ =>
          have h2 := ih (by simp)
          have e1 : joinAnd ((c :: c₂ :: rest₂) ++ [e]) =
              c ++ " AND " ++ joinAnd ((c₂ :: rest₂) ++ [e]) := rfl
          have e2 : joinAnd (c :: c₂ :: rest₂) =
              c ++ " AND " ++ joinAnd (c₂ :: rest₂) := rfl
          rw [e1, h2, e2]
          simp [String.append_assoc]

theorem sidebarConditions_eq_nil (sb : String → String) :
    sidebarConditions sb = [] ↔ ∀ p ∈ filterConfig, sb p.1 = "" := by
  unfold sidebarConditions
  rw [List.filterMap_eq_nil_iff]
  constructor
  · intro h p hp
    have := h p hp
    by_cases hc : sb p.1 = ""
    · exact hc
    · simp [hc] at this
  · intro h p hp
    simp [h p hp]

/-- C3: `getWhereClause` returns the empty clause exactly when no
sidebar filter and no chart filter is active; otherwise it returns a
clause beginning with `WHERE` whose conditions are joined by ` AND `;
and the caller pattern `` `${w} ${w ? 'AND' : 'WHERE'} ${extra}` ``
always yields (up to one leading space in the empty case) the
well-formed clause `WHERE` followed by the AND-join of all conditions
plus the extra one, so extending never produces invalid syntax. -/
theorem getWhereClause_composable (sb : String → String)
    (cf : List (String × String)) :
    (getWhereClause sb cf = "" ↔
      ((∀ p ∈ filterConfig, sb p.1 = "") ∧ cf = [])) ∧
    (¬ getWhereClause sb cf = "" →
      getWhereClause sb cf =
        "WHERE " ++ joinAnd (sidebarConditions sb ++ chartConditions cf)) ∧
    (∀ extra,
      (sidebarConditions sb ++ chartConditions cf = [] →
        extendWhereClause (getWhereClause sb cf) extra =
          " " ++ ("WHERE " ++
            joinAnd (sidebarConditions sb ++ chartConditions cf ++ [extra]))) ∧
      (¬ sidebarConditions sb ++ chartConditions cf = [] →
        extendWhereClause (getWhereClause sb cf) extra =
          "WHERE " ++
            joinAnd (sidebarConditions sb ++ chartConditions cf ++ [extra]))) := by
  by_cases h : sidebarConditions sb ++ chartConditions cf = []
  · have hempty : getWhereClause sb cf = "" := by
      unfold getWhereClause
      simp [h]
    refine ⟨?_, ?_, ?_⟩
    · rw [hempty]
      simp only [true_iff]
      obtain ⟨h1, h2⟩ := List.append_eq_nil.mp h
      exact ⟨(sidebarConditions_eq_nil sb).mp h1, by
        unfold chartConditions at h2
        exact List.map_eq_nil_iff.mp h2⟩
    · intro hne
      exact absurd hempty hne
    · intro extra
      refine ⟨fun _ => ?_, fun hne => absurd h hne⟩
      rw [hempty, h]
      rfl
  · have hpos : (sidebarConditions sb ++ chartConditions cf).length > 0 :=
      List.length_pos.mpr h
    have hW : getWhereClause sb cf =
        "WHERE " ++ joinAnd (sidebarConditions sb ++ chartConditions cf) := by
      unfold getWhereClause
      rw [if_pos hpos]
    refine ⟨?_, fun _ => hW, ?_⟩
    · rw [hW]
      constructor
      · intro habs
        exact absurd habs (where_append_ne_empty _)
      · rintro ⟨h1, h2⟩
        have hnil : sidebarConditions sb ++ chartConditions cf = [] := by
          rw [(sidebarConditions_eq_nil sb).mpr h1, h2]
          rfl
        exact absurd hnil h
    · intro extra
      refine ⟨fun hnil => absurd hnil h, fun _ => ?_⟩
      rw [hW]
      unfold extendWhereClause
      rw [if_neg (where_append_ne_empty _),
        joinAnd_append_singleton _ extra h]
      simp [String.append_assoc]

/-- C3 witness: the theorem applied at an empty filter state (empty
clause) and at a one-chart-filter state (clause extension). -/
theorem getWhereClause_composable_witness :
    getWhereClause (fun _ => "") [] = "" ∧
    extendWhereClause (getWhereClause (fun _ => "") [("role", "DE")]) "x IS NOT NULL" =
      "WHERE " ++ joinAnd (sidebarConditions (fun _ => "") ++
        chartConditions [("role", "DE")] ++ ["x IS NOT NULL"]) :=
  ⟨(getWhereClause_composable (fun _ => "") []).1.mpr ⟨fun _ _ => rfl, rfl⟩,
   ((getWhereClause_composable (fun _ => "") [("role", "DE")]).2.2
     "x IS NOT NULL").2 (by decide)⟩

/-- A column identifier not present in any static configuration,
as it could arrive through the persisted chart-filter shape (the `cf`
URL parameter or the `_chartFilters` localStorage object). -/
def evilColumn : String := "region) OR (1=1"

theorem sqlEscape_char_counts (l : List Char) :
    (l.flatMap (fun c => if c = squote then [c, c] else [c])).count squote =
      2 * l.count squote ∧
    (l.flatMap (fun c => if c = squote then [c, c] else [c])).filter
        (fun c => ¬ c = squote) =
      l.filter (fun c => ¬ c = squote) := by
  induction l with
  | nil => exact ⟨rfl, rfl⟩
  | cons c rest ih =>
      by_cases hc : c = squote
      · subst hc
        constructor
        · rw [List.flatMap_cons, if_pos rfl, List.count_append, ih.1]
          simp [List.count_cons]
          omega
        · rw [List.flatMap_cons, if_pos rfl, List.filter_append, ih.2]
          simp [List.filter_cons]
      · constructor
        · rw [List.flatMap_cons, if_neg hc, List.count_append, ih.1]
          simp [List.count_cons, hc]
        · rw [List.flatMap_cons, if_neg hc, List.filter_append, ih.2]
          simp [List.filter_cons, hc]

/-- C4 (counterexample): the restore paths (`restoreStateFromUrl` lines
139-150, `restoreFiltersFromLocalStorage` lines 428-431) copy parsed
chart-filter entries into `chartFilters` without any allowlist check, so
a persisted key outside the static configuration flows into
`getWhereClause` and is interpolated as an identifier. -/
theorem whereClause_identifier_counterexample :
    restoreChartFilters [(evilColumn, "x")] [] = [(evilColumn, "x")] ∧
    allowedColumns.contains evilColumn = false ∧
    getWhereClause (fun _ => "") [(evilColumn, "x")] =
      "WHERE " ++ eqCondition evilColumn "x" := by
  refine ⟨rfl, by decide, rfl⟩

/-- C4 (amended): every interpolated literal is the single-quote-doubled
escape of the original value (quote count doubles, all other characters
are preserved); sidebar conditions draw their identifiers only from the
static `filterConfig`; and the interactive chart-click path preserves
the invariant that every `chartFilters` key is allowlisted - but the
persisted-state restore path copies keys unvalidated, so identifiers
reaching the clause are not in general restricted to the allowlist. -/
theorem whereClause_escaping_amended (sb : String → String)
    (cf : List (String × String)) :
    (∀ v : String,
      (sqlEscape v).toList.count squote = 2 * v.toList.count squote ∧
      (sqlEscape v).toList.filter (fun c => ¬ c = squote) =
        v.toList.filter (fun c => ¬ c = squote)) ∧
    (∀ c ∈ sidebarConditions sb,
      ∃ p, p ∈ filterConfig ∧ p.2 ∈ allowedColumns ∧
        c = eqCondition p.2 (sb p.1)) ∧
    (∀ col v, col ∈ allowedColumns →
      (∀ p ∈ cf, p.1 ∈ allowedColumns) →
      ∀ p ∈ addChartFilter cf col v, p.1 ∈ allowedColumns) := by
  refine ⟨?_, ?_, ?_⟩
  · intro v
    have h := sqlEscape_char_counts v.toList
    exact ⟨h.1, h.2⟩
  · intro c hc
    unfold sidebarConditions at hc
    rw [List.mem_filterMap] at hc
    obtain ⟨p, hp, hf⟩ := hc
    by_cases he : sb p.1 = ""
    · rw [if_pos he] at hf
      exact absurd hf (by simp)
    · rw [if_neg he] at hf
      refine ⟨p, hp, ?_, (Option.some_inj.mp hf).symm⟩
      unfold allowedColumns
      exact List.mem_append_left _ (List.mem_append_left _
        (List.mem_map.mpr ⟨p, hp, rfl⟩))
  · intro col v hcol hall p hp
    unfold addChartFilter at hp
    by_cases hg : objGet cf col = some v
    · rw [if_pos hg] at hp
      unfold objDelete at hp
      exact hall p (List.mem_of_mem_filter hp)
    · rw [if_neg hg] at hp
      unfold objSet at hp
      by_cases hs : (cf.find? (fun p => p.1 = col)).isSome
      · rw [if_pos hs] at hp
        rw [List.mem_map] at hp
        obtain ⟨q, hq, hqp⟩ := hp
        by_cases hqc : q.1 = col
        · rw [if_pos hqc] at hqp
          rw [← hqp]
          exact hcol
        · rw [if_neg hqc] at hqp
          rw [← hqp]
          exact hall q hq
      · rw [if_neg hs] at hp
        rcases List.mem_append.mp hp with hmem | hmem
        · exact hall p hmem
        · rw [List.mem_singleton.mp hmem]
          exact hcol

/-- C4 witness: the amended theorem applied at a concrete sidebar state
and a one-entry chart-filter state whose key is the `role` chart
column. -/
theorem whereClause_escaping_amended_witness :
    (sqlEscape "x").toList.count squote = 2 * ("x" : String).toList.count squote ∧
    ∀ p ∈ addChartFilter [("role", "A")] "region" "EU", p.1 ∈ allowedColumns :=
  ⟨((whereClause_escaping_amended (fun _ => "") [("role", "A")]).1 "x").1,
   (whereClause_escaping_amended (fun _ => "") [("role", "A")]).2.2 "region" "EU"
     (by decide)
     (by intro p hp; rw [List.mem_singleton.mp hp]; decide)⟩

theorem mem_replaceAllChar (x c : Char) (rep l : List Char)
    (h : x ∈ replaceAllChar c rep l) : x ∈ rep ∨ (x ∈ l ∧ ¬ x = c) := by
  unfold replaceAllChar at h
  rw [List.mem_flatMap] at h
  obtain ⟨a, ha, hx⟩ := h
  by_cases hac : a = c
  · rw [if_pos hac] at hx
    exact Or.inl hx
  · rw [if_neg hac] at hx
    rw [List.mem_singleton.mp hx]
    exact Or.inr ⟨ha, hac⟩

theorem not_mem_escapeHtml (x : Char) (s : String)
    (h1 : ¬ x ∈ "&#039;".toList) (h2 : ¬ x ∈ "&quot;".toList)
    (h3 : ¬ x ∈ "&gt;".toList) (h4 : ¬ x ∈ "&lt;".toList)
    (h5 : x = '<' ∨ x = '>' ∨ x = '"' ∨ x = squote) :
    ¬ x ∈ (escapeHtml (some s)).toList := by
  intro hmem
  have st : (escapeHtml (some s)).toList =
      replaceAllChar squote "&#039;".toList
        (replaceAllChar '"' "&quot;".toList
          (replaceAllChar '>' "&gt;".toList
            (replaceAllChar '<' "&lt;".toList
              (replaceAllChar '&' "&amp;".toList s.toList)))) := rfl
  rw [st] at hmem
  rcases mem_replaceAllChar x squote _ _ hmem with hr | ⟨hmem, hxq⟩
  · exact h1 hr
  rcases mem_replaceAllChar x '"' _ _ hmem with hr | ⟨hmem, hxd⟩
  · exact h2 hr
  rcases mem_replaceAllChar x '>' _ _ hmem with hr | ⟨hmem, hxg⟩
  · exact h3 hr
  rcases mem_replaceAllChar x '<' _ _ hmem with hr | ⟨_, hxl⟩
  · exact h4 hr
  rcases h5 with h | h | h | h
  · exact hxl h
  · exact hxg h
  · exact hxd h
  · exact hxq h

/-- C10: for every string input, `escapeHtml` returns a string
containing no raw occurrence of the characters `<`, `>`, `"` or the
single quote (each is replaced by its HTML entity, with `&` escaped
first), and `null`/`undefined` inputs (modelled as `none`) yield the
empty string. -/
theorem escapeHtml_spec (s : String) :
    (escapeHtml (some s)).toList.count '<' = 0 ∧
    (escapeHtml (some s)).toList.count '>' = 0 ∧
    (escapeHtml (some s)).toList.count '"' = 0 ∧
    (escapeHtml (some s)).toList.count squote = 0 ∧
    escapeHtml none = "" := by
  refine ⟨?_, ?_, ?_, ?_, rfl⟩ <;>
    rw [List.count_eq_zero] <;>
    apply not_mem_escapeHtml <;> decide

/-- C8: when the row dimension equals the column dimension,
`updateCrosstab` issues no query, rewrites the results container to the
invalid-pivot placeholder (an early `return`, not an exception), and
leaves all other state - the stored matrix and the sort state -
unchanged. -/
theorem invalid_pivot_spec (rowCol : String) (metric : Metric)
    (w : String) (resp : EngineResponses) (old : CrosstabView) :
    (updateCrosstabStep rowCol rowCol metric w resp old).2 = [] ∧
    (updateCrosstabStep rowCol rowCol metric w resp old).1.container =
      ContainerContent.invalidPivotPlaceholder ∧
    (updateCrosstabStep rowCol rowCol metric w resp old).1.data = old.data ∧
    (updateCrosstabStep rowCol rowCol metric w resp old).1.sortCol = old.sortCol ∧
    (updateCrosstabStep rowCol rowCol metric w resp old).1.sortDir = old.sortDir := by
  refine ⟨?_, ?_, ?_, ?_, ?_⟩ <;> simp [updateCrosstabStep]

/-- C9: the heatmap mapper is pure: intensity is the cell value divided
by the matrix maximum, lies in `[0, 1]` for `0 ≤ value ≤ max` and is 0
when the maximum is 0; the color is `transparent` exactly at intensity
0 and otherwise an alpha strictly increasing with intensity, lying in
`(0.15, 0.85]` on `(0, 1]`; and the foreground flips to high contrast
exactly when intensity exceeds 0.5. -/
theorem heatmap_spec (v m : ℚ) (h0 : 0 ≤ v) (h1 : v ≤ m) :
    (0 ≤ intensity v m ∧ intensity v m ≤ 1) ∧
    (m = 0 → intensity v m = 0) ∧
    getHeatmapColor 0 = none ∧
    (∀ i₁ i₂ : ℚ, i₁ < i₂ → heatAlpha i₁ < heatAlpha i₂) ∧
    (∀ i : ℚ, 0 < i → i ≤ 1 →
      getHeatmapColor i = some (heatAlpha i) ∧
      15 / 100 < heatAlpha i ∧ heatAlpha i ≤ 85 / 100) ∧
    (∀ i : ℚ, textHighContrast i = true ↔ 1 / 2 < i) := by
  refine ⟨?_, ?_, ?_, ?_, ?_, ?_⟩
  · unfold intensity
    by_cases hm : 0 < m
    · rw [if_pos hm]
      exact ⟨div_nonneg h0 (le_of_lt hm), (div_le_one hm).mpr h1⟩
    · rw [if_neg hm]
      norm_num
  · intro hm
    unfold intensity
    rw [hm]
    norm_num
  · rfl
  · intro i₁ i₂ hlt
    unfold heatAlpha
    have h7 : (0:ℚ) < 85 / 100 - 15 / 100 := by norm_num
    nlinarith
  · intro i hpos hle
    refine ⟨?_, ?_, ?_⟩
    · unfold getHeatmapColor
      rw [if_neg (ne_of_gt hpos)]
    · unfold heatAlpha
      nlinarith
    · unfold heatAlpha
      nlinarith
  · intro i
    unfold textHighContrast
    simp

/-- C9 witness: the theorem applied at cell value 1 and matrix maximum
2. -/
theorem heatmap_spec_witness :
    (0 ≤ intensity 1 2 ∧ intensity 1 2 ≤ 1) ∧
    ((2:ℚ) = 0 → intensity 1 2 = 0) ∧
    getHeatmapColor 0 = none ∧
    (∀ i₁ i₂ : ℚ, i₁ < i₂ → heatAlpha i₁ < heatAlpha i₂) ∧
    (∀ i : ℚ, 0 < i → i ≤ 1 →
      getHeatmapColor i = some (heatAlpha i) ∧
      15 / 100 < heatAlpha i ∧ heatAlpha i ≤ 85 / 100) ∧
    (∀ i : ℚ, textHighContrast i = true ↔ 1 / 2 < i) :=
  heatmap_spec 1 2 (by norm_num) (by norm_num)

/-- C5 (counterexample): two overlapping crosstab updates - issuance
index 0 first, index 1 second - whose responses arrive in the opposite
order end with the index-0 response rendered: the code attaches no
generation tag and discards nothing, so the rendered state reflects the
most recently arrived response, not the most recently issued one. -/
theorem stale_response_counterexample :
    (processArrivals Metric.count initialCrosstabView
        [⟨1, respNewer⟩, ⟨0, respOlder⟩]).data =
      some (assembleCrosstab respOlder.detail respOlder.rowT respOlder.colT) ∧
    decide (assembleCrosstab respOlder.detail respOlder.rowT respOlder.colT =
        assembleCrosstab respNewer.detail respNewer.rowT respNewer.colT) =
      false := by
  constructor
  · rfl
  · rfl

/-- C5 (amended): responses carry no generation tag the code consults
(`applyArrivedResponse` is invariant under changing the bookkeeping
index), and each arriving response overwrites the view unconditionally,
so after any sequence of arrivals the view is the one produced by the
last-arrived response - arrival order wins, not issuance order. -/
theorem arrival_order_wins_amended (metric : Metric) (v : CrosstabView)
    (ys : List TaggedResponse) (y : TaggedResponse) (g : Nat) :
    processArrivals metric v (ys ++ [y]) =
      applyArrivedResponse metric (processArrivals metric v ys) y ∧
    applyArrivedResponse metric v { y with gen := g } =
      applyArrivedResponse metric v y := by
  constructor
  · unfold processArrivals
    rw [List.foldl_append]
    rfl
  · rfl

/-- C7: after every fresh matrix assembly the sort state is reset to
row total descending; clicking the active sort key toggles the
direction, clicking a different key activates it with direction
descending; and the sort-click handler issues no query (it only
re-renders the stored matrix). -/
theorem crosstab_sort_spec (rowCol colCol : String) (metric : Metric)
    (w : String) (resp : EngineResponses) (old : CrosstabView)
    (hne : ¬ rowCol = colCol) (hdata : ¬ resp.detail = []) :
    ((updateCrosstabStep rowCol colCol metric w resp old).1.sortCol = "_total" ∧
     (updateCrosstabStep rowCol colCol metric w resp old).1.sortDir =
       SortDir.desc) ∧
    (∀ sc dir, clickSortHeader sc dir sc =
      (sc, if dir = SortDir.desc then SortDir.asc else SortDir.desc)) ∧
    (∀ sc dir k, ¬ sc = k → clickSortHeader sc dir k = (k, SortDir.desc)) ∧
    (∀ view m k, (handleSortClick view m k).2 = []) := by
  refine ⟨?_, ?_, ?_, ?_⟩
  · constructor <;> simp [updateCrosstabStep, hne, hdata]
  · intro sc dir
    simp [clickSortHeader]
  · intro sc dir k h
    simp [clickSortHeader, h]
  · intro view m k
    unfold handleSortClick
    cases view.data <;> rfl

/-- C7 witness: the theorem applied at a concrete valid pivot with a
non-empty detail result. -/
theorem crosstab_sort_spec_witness :
    ¬ ("role" : String) = "region" ∧
    (updateCrosstabStep "role" "region" Metric.count "" respOlder
        initialCrosstabView).1.sortCol = "_total" ∧
    clickSortHeader "_total" SortDir.desc "_total" = ("_total", SortDir.asc) :=
  ⟨by decide,
   ((crosstab_sort_spec "role" "region" Metric.count "" respOlder
      initialCrosstabView (by decide) (by decide)).1).1,
   (crosstab_sort_spec "role" "region" Metric.count "" respOlder
      initialCrosstabView (by decide) (by decide)).2.1 "_total" SortDir.desc⟩

/-! Helper lemmas about deduplication, map normalization, lookup,
permutation and sortedness. -/

theorem countOcc_cons {γ : Type} [DecidableEq γ] (a x : γ) (l : List γ) :
    countOcc a (x :: l) = countOcc a l + if x = a then 1 else 0 := by
  unfold countOcc
  rw [List.countP_cons]
  simp

theorem countOcc_eq_zero {γ : Type} [DecidableEq γ] (a : γ) (l : List γ)
    (h : ¬ a ∈ l) : countOcc a l = 0 := by
  unfold countOcc
  rw [List.countP_eq_zero]
  intro x hx
  simp only [decide_eq_true_eq]
  intro he
  exact h (he ▸ hx)

theorem mem_dedupFirstAux {α : Type} [DecidableEq α] (a : α) (l : List α) :
    ∀ seen, (a ∈ dedupFirstAux seen l ↔ (a ∈ l ∧ ¬ a ∈ seen)) := by
  induction l with
  | nil => intro seen; simp [dedupFirstAux]
  | cons x xs ih =>
      intro seen
      unfold dedupFirstAux
      by_cases hx : x ∈ seen
      · rw [if_pos hx, ih seen]
        constructor
        · rintro ⟨h1, h2⟩
          exact ⟨List.mem_cons_of_mem x h1, h2⟩
        · rintro ⟨h1, h2⟩
          rcases List.mem_cons.mp h1 with rfl | h1
          · exact absurd hx h2
          · exact ⟨h1, h2⟩
      · rw [if_neg hx, List.mem_cons, ih (x :: seen)]
        constructor
        · rintro (rfl | ⟨h1, h2⟩)
          · exact ⟨List.mem_cons_self _ _, hx⟩
          · exact ⟨List.mem_cons_of_mem x h1,
              fun hs => h2 (List.mem_cons_of_mem x hs)⟩
        · rintro ⟨h1, h2⟩
          by_cases hax : a = x
          · exact Or.inl hax
          · rcases List.mem_cons.mp h1 with h | h
            · exact absurd h hax
            · refine Or.inr ⟨h, fun hs => ?_⟩
              rcases List.mem_cons.mp hs with h3 | h3
              · exact hax h3
              · exact h2 h3

theorem mem_dedupFirst {α : Type} [DecidableEq α] (a : α) (l : List α) :
    a ∈ dedupFirst l ↔ a ∈ l := by
  unfold dedupFirst
  rw [mem_dedupFirstAux a l []]
  simp

theorem nodup_dedupFirstAux {α : Type} [DecidableEq α] (l : List α) :
    ∀ seen, (dedupFirstAux seen l).Nodup := by
  induction l with
  | nil => intro seen; exact List.nodup_nil
  | cons x xs ih =>
      intro seen
      unfold dedupFirstAux
      by_cases hx : x ∈ seen
      · rw [if_pos hx]
        exact ih seen
      · rw [if_neg hx]
        refine List.nodup_cons.mpr ⟨?_, ih (x :: seen)⟩
        intro hmem
        exact ((mem_dedupFirstAux x xs (x :: seen)).mp hmem).2
          (List.mem_cons_self x seen)

theorem nodup_dedupFirst {α : Type} [DecidableEq α] (l : List α) :
    (dedupFirst l).Nodup :=
  nodup_dedupFirstAux l []

theorem mapNormalizeAux_eq_self {α β : Type} [DecidableEq α]
    (l : List (α × β)) :
    ∀ seen, (∀ k ∈ l.map Prod.fst, ¬ k ∈ seen) →
      (l.map Prod.fst).Nodup → mapNormalizeAux seen l = l := by
  induction l with
  | nil => intro seen _ _; rfl
  | cons p rest ih =>
      intro seen hseen hnd
      simp only [List.map_cons, List.nodup_cons] at hnd
      unfold mapNormalizeAux
      rw [if_neg (hseen p.1 (by simp))]
      have hfil : rest.filter (fun q => q.1 = p.1) = [] := by
        rw [List.filter_eq_nil_iff]
        intro q hq
        simp only [decide_eq_true_eq]
        intro hq1
        exact hnd.1 (hq1 ▸ List.mem_map_of_mem Prod.fst hq)
      rw [hfil]
      have htail : mapNormalizeAux (p.1 :: seen) rest = rest := by
        apply ih
        · intro k hk hks
          rcases List.mem_cons.mp hks with h | h
          · exact hnd.1 (h ▸ hk)
          · exact hseen k (by simpa using Or.inr hk) h
        · exact hnd.2
      rw [htail]
      rfl

theorem mapNormalize_eq_self {α β : Type} [DecidableEq α]
    (l : List (α × β)) (h : (l.map Prod.fst).Nodup) : mapNormalize l = l :=
  mapNormalizeAux_eq_self l [] (by simp) h

theorem find?_eq_none_of_keys {α β : Type} [DecidableEq α]
    (l : List (α × β)) (k : α) (h : ¬ k ∈ l.map Prod.fst) :
    l.find? (fun p => p.1 = k) = none := by
  rw [List.find?_eq_none]
  intro x hx
  simp only [decide_eq_true_eq]
  intro he
  exact h (he ▸ List.mem_map_of_mem Prod.fst hx)

theorem lookupCount_eq_zero_of_keys {α : Type} [DecidableEq α]
    (l : List (α × Nat)) (k : α) (h : ¬ k ∈ l.map Prod.fst) :
    lookupCount l k = 0 := by
  unfold lookupCount
  rw [find?_eq_none_of_keys l k h]
  rfl

theorem lookupCount_of_mem_nodup {α : Type} [DecidableEq α]
    (l : List (α × Nat)) (k : α) (v : Nat)
    (hnd : (l.map Prod.fst).Nodup) (hm : (k, v) ∈ l) :
    lookupCount l k = v := by
  induction l with
  | nil => simp at hm
  | cons p rest ih =>
      simp only [List.map_cons, List.nodup_cons] at hnd
      rcases List.mem_cons.mp hm with h | hm2
      · unfold lookupCount
        rw [← h]
        simp [List.find?]
      · have hk : ¬ p.1 = k := by
          intro he
          exact hnd.1 (he ▸ List.mem_map_of_mem Prod.fst hm2)
        have hstep : lookupCount (p :: rest) k = lookupCount rest k := by
          unfold lookupCount
          simp [List.find?, hk]
        rw [hstep]
        exact ih hnd.2 hm2

theorem find?_keyed_map {α β : Type} [DecidableEq α] (ks : List α)
    (f : α → β) (k : α) (h : k ∈ ks) :
    (ks.map (fun x => (x, f x))).find? (fun p => p.1 = k) = some (k, f k) := by
  induction ks with
  | nil => simp at h
  | cons a rest ih =>
      by_cases hak : a = k
      · subst hak
        simp [List.find?]
      · have h2 : k ∈ rest := by
          rcases List.mem_cons.mp h with h | h
          · exact absurd h.symm hak
          · exact h
        have hstep : ((a :: rest).map (fun x => (x, f x))).find?
            (fun p => p.1 = k) =
            (rest.map (fun x => (x, f x))).find? (fun p => p.1 = k) := by
          simp [List.find?, hak]
        rw [hstep]
        exact ih h2

theorem map_fst_groupCounts {α : Type} [DecidableEq α] (l : List α) :
    (groupCounts l).map Prod.fst = dedupFirst l := by
  unfold groupCounts
  rw [List.map_map]
  rw [show (Prod.fst ∘ fun k => (k, countOcc k l)) = id from rfl, List.map_id]

theorem lookupCount_groupCounts {α : Type} [DecidableEq α]
    (l : List α) (k : α) :
    lookupCount (groupCounts l) k = countOcc k l := by
  by_cases h : k ∈ l
  · have hd : k ∈ dedupFirst l := (mem_dedupFirst k l).mpr h
    unfold lookupCount groupCounts
    rw [find?_keyed_map _ _ _ hd]
    rfl
  · have hz : countOcc k l = 0 := countOcc_eq_zero k l h
    rw [hz]
    apply lookupCount_eq_zero_of_keys
    rw [map_fst_groupCounts]
    intro hc
    exact h ((mem_dedupFirst k l).mp hc)

theorem insertDesc_perm {α : Type} (x : α × Nat) (l : List (α × Nat)) :
    (insertDesc x l).Perm (x :: l) := by
  induction l with
  | nil => exact List.Perm.refl _
  | cons y ys ih =>
      unfold insertDesc
      by_cases h : y.2 < x.2
      · rw [if_pos h]
      · rw [if_neg h]
        exact (ih.cons y).trans (List.Perm.swap x y ys)

theorem sortByCountDesc_perm {α : Type} (l : List (α × Nat)) :
    (sortByCountDesc l).Perm l := by
  have h : ∀ acc : List (α × Nat),
      (l.foldl (fun acc x => insertDesc x acc) acc).Perm (l ++ acc) := by
    induction l with
    | nil => intro acc; simp
    | cons x xs ih =>
        intro acc
        simp only [List.foldl_cons]
        exact ((ih (insertDesc x acc)).trans
          (List.Perm.append_left xs (insertDesc_perm x acc))).trans
          List.perm_middle
  simpa using h []

theorem chain'_insertDesc {α : Type} (x : α × Nat) (l : List (α × Nat))
    (h : List.Chain' (fun a b => b.2 ≤ a.2) l) :
    List.Chain' (fun a b => b.2 ≤ a.2) (insertDesc x l) := by
  induction l with
  | nil => simp [insertDesc]
  | cons y ys ih =>
      unfold insertDesc
      by_cases hlt : y.2 < x.2
      · rw [if_pos hlt]
        exact List.chain'_cons.mpr ⟨le_of_lt hlt, h⟩
      · rw [if_neg hlt]
        obtain ⟨hhead, htail⟩ := List.chain'_cons'.mp h
        refine List.chain'_cons'.mpr ⟨?_, ih htail⟩
        intro z hz
        cases ys with
        | nil =>
            simp only [insertDesc, List.head?_cons, Option.mem_def,
              Option.some_inj] at hz
            rw [← hz]
            exact Nat.le_of_not_lt hlt
        | cons w ws =>
            unfold insertDesc at hz
            by_cases hw : w.2 < x.2
            · rw [if_pos hw] at hz
              simp only [List.head?_cons, Option.mem_def, Option.some_inj] at hz
              rw [← hz]
              exact Nat.le_of_not_lt hlt
            · rw [if_neg hw] at hz
              simp only [List.head?_cons, Option.mem_def, Option.some_inj] at hz
              rw [← hz]
              exact hhead w rfl

theorem chain'_sortByCountDesc {α : Type} (l : List (α × Nat)) :
    List.Chain' (fun a b : α × Nat => b.2 ≤ a.2) (sortByCountDesc l) := by
  have h : ∀ acc, List.Chain' (fun a b : α × Nat => b.2 ≤ a.2) acc →
      List.Chain' (fun a b : α × Nat => b.2 ≤ a.2)
        (l.foldl (fun acc x => insertDesc x acc) acc) := by
    induction l with
    | nil => intro acc hacc; exact hacc
    | cons x xs ih =>
        intro acc hacc
        exact ih _ (chain'_insertDesc x acc hacc)
  exact h [] (by simp)

/-- C6: the assembled matrix's `rows`/`cols` are exactly the keys of the
respective marginal-total result in that result's order (duplicate-free
keys, as `GROUP BY` guarantees); every `(row, col)` pair absent from the
detail result gets cell count 0; `grandTotal` is the sum of the row
marginal totals; the modelled `ORDER BY total DESC` output is indeed
descending by total; and a successful `updateCrosstab` run issues
exactly the detail query and the two marginal-total queries - no
separate grand-total query. -/
theorem crosstab_assembly_spec (detail : List ((String × String) × Nat))
    (rowT colT : List (String × Nat))
    (hd : (detail.map Prod.fst).Nodup)
    (hr : (rowT.map Prod.fst).Nodup)
    (hc : (colT.map Prod.fst).Nodup) :
    (assembleCrosstab detail rowT colT).rows = rowT.map Prod.fst ∧
    (assembleCrosstab detail rowT colT).cols = colT.map Prod.fst ∧
    (∀ r c, ¬ (r, c) ∈ detail.map Prod.fst →
      cellCount (assembleCrosstab detail rowT colT) r c = 0) ∧
    (assembleCrosstab detail rowT colT).grandTotal =
      (rowT.map (fun p => p.2)).sum ∧
    (∀ l : List (String × Nat),
      List.Chain' (fun a b => b.2 ≤ a.2) (sortByCountDesc l)) ∧
    (∀ rowCol colCol metric w old, ¬ rowCol = colCol → ¬ detail = [] →
      (updateCrosstabStep rowCol colCol metric w ⟨detail, rowT, colT⟩ old).2 =
        [QuerySpec.crosstabDetail rowCol colCol w (isMultiSelect rowCol)
          (isMultiSelect colCol),
         QuerySpec.marginalTotals rowCol w (isMultiSelect rowCol),
         QuerySpec.marginalTotals colCol w (isMultiSelect colCol)]) := by
  refine ⟨?_, ?_, ?_, ?_, fun l => chain'_sortByCountDesc l, ?_⟩
  · unfold assembleCrosstab
    rw [mapNormalize_eq_self rowT hr]
  · unfold assembleCrosstab
    rw [mapNormalize_eq_self colT hc]
  · intro r c hrc
    unfold cellCount assembleCrosstab
    rw [mapNormalize_eq_self detail hd]
    exact lookupCount_eq_zero_of_keys detail (r, c) hrc
  · unfold assembleCrosstab
    rw [mapNormalize_eq_self rowT hr]
  · intro rowCol colCol metric w old hne hdet
    simp [updateCrosstabStep, hne, hdet]

/-- C6 witness: the theorem applied at concrete duplicate-free query
results. -/
theorem crosstab_assembly_spec_witness :
    (assembleCrosstab [(("A", "X"), 3)] [("A", 5)] [("X", 4)]).rows =
      [("A", 5)].map Prod.fst ∧
    (assembleCrosstab [(("A", "X"), 3)] [("A", 5)] [("X", 4)]).grandTotal =
      ([("A", 5)].map (fun p : String × Nat => p.2)).sum ∧
    cellCount (assembleCrosstab [(("A", "X"), 3)] [("A", 5)] [("X", 4)])
      "A" "Y" = 0 :=
  ⟨(crosstab_assembly_spec [(("A", "X"), 3)] [("A", 5)] [("X", 4)]
      (by decide) (by decide) (by decide)).1,
   (crosstab_assembly_spec [(("A", "X"), 3)] [("A", 5)] [("X", 4)]
      (by decide) (by decide) (by decide)).2.2.2.1,
   (crosstab_assembly_spec [(("A", "X"), 3)] [("A", 5)] [("X", 4)]
      (by decide) (by decide) (by decide)).2.2.1 "A" "Y" (by decide)⟩

/-! Helper lemmas for the marginal-sum analysis (C1). -/

theorem sum_map_add {α : Type} (keys : List α) (f g : α → Nat) :
    (keys.map (fun k => f k + g k)).sum = (keys.map f).sum + (keys.map g).sum := by
  induction keys with
  | nil => rfl
  | cons a rest ih =>
      simp only [List.map_cons, List.sum_cons, ih]
      omega

theorem sum_indicator_eq_zero {α : Type} [DecidableEq α] (keys : List α)
    (b : α) (h : ¬ b ∈ keys) :
    (keys.map (fun c => if b = c then (1:Nat) else 0)).sum = 0 := by
  induction keys with
  | nil => rfl
  | cons a rest ih =>
      simp only [List.mem_cons] at h
      push_neg at h
      simp only [List.map_cons, List.sum_cons]
      rw [if_neg h.1, ih h.2]

theorem sum_indicator_eq_one {α : Type} [DecidableEq α] (keys : List α)
    (b : α) (hnd : keys.Nodup) (h : b ∈ keys) :
    (keys.map (fun c => if b = c then (1:Nat) else 0)).sum = 1 := by
  induction keys with
  | nil => simp at h
  | cons a rest ih =>
      rw [List.nodup_cons] at hnd
      simp only [List.map_cons, List.sum_cons]
      by_cases hab : b = a
      · rw [if_pos hab, sum_indicator_eq_zero rest b (hab ▸ hnd.1)]
      · have hb : b ∈ rest := by
          rcases List.mem_cons.mp h with h | h
          · exact absurd h hab
          · exact h
        rw [if_neg hab, ih hnd.2 hb]

theorem sum_count_eq_length {β : Type} [DecidableEq β] (l keys : List β)
    (hnd : keys.Nodup) (hcov : ∀ x ∈ l, x ∈ keys) :
    (keys.map (fun k => countOcc k l)).sum = l.length := by
  induction l with
  | nil => simp [countOcc]
  | cons x xs ih =>
      have hstep : keys.map (fun k => countOcc k (x :: xs)) =
          keys.map (fun k => countOcc k xs + if x = k then 1 else 0) := by
        apply List.map_congr_left
        intro k _
        rw [countOcc_cons]
      rw [hstep, sum_map_add, ih (fun y hy => hcov y (List.mem_cons_of_mem x hy)),
        sum_indicator_eq_one keys x hnd (hcov x (List.mem_cons_self x xs))]
      simp

theorem count_pairs_fst {α β : Type} [DecidableEq α] [DecidableEq β]
    (pairs : List (α × β)) (r : α) (c : β) :
    countOcc c ((pairs.filter (fun p => p.1 = r)).map (fun p => p.2)) =
      countOcc (r, c) pairs := by
  induction pairs with
  | nil => rfl
  | cons p rest ih =>
      by_cases h1 : p.1 = r
      · by_cases h2 : p.2 = c
        · have hp : p = (r, c) := by
            rw [Prod.ext_iff]
            exact ⟨h1, h2⟩
          simp [List.filter_cons, countOcc_cons, h1, h2, hp, ih]
        · have hp : ¬ p = (r, c) := by
            rw [Prod.ext_iff]
            intro hcon
            exact h2 hcon.2
          simp [List.filter_cons, countOcc_cons, h1, h2, hp, ih]
      · have hp : ¬ p = (r, c) := by
          rw [Prod.ext_iff]
          intro hcon
          exact h1 hcon.1
        simp [List.filter_cons, countOcc_cons, h1, hp, ih]

theorem count_pairs_snd {α β : Type} [DecidableEq α] [DecidableEq β]
    (pairs : List (α × β)) (r : α) (c : β) :
    countOcc r ((pairs.filter (fun p => p.2 = c)).map (fun p => p.1)) =
      countOcc (r, c) pairs := by
  induction pairs with
  | nil => rfl
  | cons p rest ih =>
      by_cases h2 : p.2 = c
      · by_cases h1 : p.1 = r
        · have hp : p = (r, c) := by
            rw [Prod.ext_iff]
            exact ⟨h1, h2⟩
          simp [List.filter_cons, countOcc_cons, h1, h2, hp, ih]
        · have hp : ¬ p = (r, c) := by
            rw [Prod.ext_iff]
            intro hcon
            exact h1 hcon.1
          simp [List.filter_cons, countOcc_cons, h2, h1, hp, ih]
      · have hp : ¬ p = (r, c) := by
          rw [Prod.ext_iff]
          intro hcon
          exact h2 hcon.2
        simp [List.filter_cons, countOcc_cons, h2, hp, ih]

theorem pairFn_eq_some (x : SurveyRec) (a : String) (b : String) :
    pairFn x = some (a, b) ↔ x.1 = some a ∧ x.2 = some b := by
  rcases x with ⟨_ | a0, _ | b0⟩ <;> simp [pairFn]

theorem mem_recordPairs_snd (db : List SurveyRec) (pred : SurveyRec → Bool)
    (p : String × String) (h : p ∈ recordPairs db pred) :
    p.2 ∈ recordVals db pred (fun x => x.2) := by
  unfold recordPairs at h
  rw [List.mem_filterMap] at h
  obtain ⟨x, hx, hfx⟩ := h
  have := (pairFn_eq_some x p.1 p.2).mp (by rw [hfx])
  unfold recordVals
  rw [List.mem_filterMap]
  exact ⟨x, hx, this.2⟩

theorem mem_recordPairs_fst (db : List SurveyRec) (pred : SurveyRec → Bool)
    (p : String × String) (h : p ∈ recordPairs db pred) :
    p.1 ∈ recordVals db pred (fun x => x.1) := by
  unfold recordPairs at h
  rw [List.mem_filterMap] at h
  obtain ⟨x, hx, hfx⟩ := h
  have := (pairFn_eq_some x p.1 p.2).mp (by rw [hfx])
  unfold recordVals
  rw [List.mem_filterMap]
  exact ⟨x, hx, this.1⟩

theorem lookupCount_marginal {α : Type} [DecidableEq α] (l : List α) (k : α) :
    lookupCount (mapNormalize (sortByCountDesc (groupCounts l))) k =
      countOcc k l := by
  have hperm : (sortByCountDesc (groupCounts l)).Perm (groupCounts l) :=
    sortByCountDesc_perm _
  have hkeys : ((sortByCountDesc (groupCounts l)).map Prod.fst).Perm
      (dedupFirst l) := by
    rw [← map_fst_groupCounts l]
    exact hperm.map Prod.fst
  have hnd : ((sortByCountDesc (groupCounts l)).map Prod.fst).Nodup :=
    hkeys.nodup_iff.mpr (nodup_dedupFirst l)
  rw [mapNormalize_eq_self _ hnd]
  by_cases h : k ∈ l
  · apply lookupCount_of_mem_nodup _ _ _ hnd
    apply hperm.mem_iff.mpr
    exact List.mem_map_of_mem _ ((mem_dedupFirst k l).mpr h)
  · rw [countOcc_eq_zero k l h]
    apply lookupCount_eq_zero_of_keys
    intro hk
    exact h ((mem_dedupFirst k l).mp (hkeys.mem_iff.mp hk))

theorem marginal_keys {α : Type} [DecidableEq α] (l : List α) :
    ((mapNormalize (sortByCountDesc (groupCounts l))).map Prod.fst).Nodup ∧
    (∀ k, k ∈ (mapNormalize (sortByCountDesc (groupCounts l))).map Prod.fst ↔
      k ∈ l) := by
  have hperm : (sortByCountDesc (groupCounts l)).Perm (groupCounts l) :=
    sortByCountDesc_perm _
  have hkeys : ((sortByCountDesc (groupCounts l)).map Prod.fst).Perm
      (dedupFirst l) := by
    rw [← map_fst_groupCounts l]
    exact hperm.map Prod.fst
  have hnd : ((sortByCountDesc (groupCounts l)).map Prod.fst).Nodup :=
    hkeys.nodup_iff.mpr (nodup_dedupFirst l)
  rw [mapNormalize_eq_self _ hnd]
  exact ⟨hnd, fun k => (hkeys.mem_iff).trans (mem_dedupFirst k l)⟩

theorem cellCount_crosstabFromDb (db : List SurveyRec)
    (pred : SurveyRec → Bool) (r c : String) :
    cellCount (crosstabFromDb db pred) r c =
      countOcc (r, c) (recordPairs db pred) := by
  unfold cellCount crosstabFromDb assembleCrosstab detailQueryRows
  have hnd : ((groupCounts (recordPairs db pred)).map Prod.fst).Nodup := by
    rw [map_fst_groupCounts]
    exact nodup_dedupFirst _
  rw [mapNormalize_eq_self _ hnd]
  exact lookupCount_groupCounts (recordPairs db pred) (r, c)

theorem rowTotalOf_crosstabFromDb (db : List SurveyRec)
    (pred : SurveyRec → Bool) (r : String) :
    rowTotalOf (crosstabFromDb db pred) r =
      countOcc r (recordVals db pred (fun x => x.1)) := by
  unfold rowTotalOf crosstabFromDb assembleCrosstab marginalQueryRows
  exact lookupCount_marginal _ _

theorem colTotalOf_crosstabFromDb (db : List SurveyRec)
    (pred : SurveyRec → Bool) (c : String) :
    colTotalOf (crosstabFromDb db pred) c =
      countOcc c (recordVals db pred (fun x => x.2)) := by
  unfold colTotalOf crosstabFromDb assembleCrosstab marginalQueryRows
  exact lookupCount_marginal _ _

theorem recordVals_count (xs : List SurveyRec)
    (proj : SurveyRec → Option String) (r : String) :
    countOcc r (xs.filterMap proj) =
      (xs.filter (fun x => proj x = some r)).length := by
  induction xs with
  | nil => rfl
  | cons x rest ih =>
      cases hp : proj x with
      | none => simp [List.filterMap_cons, List.filter_cons, hp, ih]
      | some a =>
          by_cases ha : a = r
          · subst ha
            simp [List.filterMap_cons, List.filter_cons, hp, countOcc_cons, ih]
          · simp [List.filterMap_cons, List.filter_cons, hp, countOcc_cons,
              ih, ha]

theorem pairs_filter_fst_length (xs : List SurveyRec) (r : String) :
    ((xs.filterMap pairFn).filter (fun p => p.1 = r)).length =
      (xs.filter (fun x => decide (x.1 = some r) && x.2.isSome)).length := by
  induction xs with
  | nil => rfl
  | cons x rest ih =>
      rcases x with ⟨_ | a, _ | b⟩
      · simp [pairFn, List.filterMap_cons, List.filter_cons, ih]
      · simp [pairFn, List.filterMap_cons, List.filter_cons, ih]
      · simp [pairFn, List.filterMap_cons, List.filter_cons, ih]
      · by_cases ha : a = r
        · subst ha
          simp [pairFn, List.filterMap_cons, List.filter_cons, ih]
        · simp [pairFn, List.filterMap_cons, List.filter_cons, ih, ha]

theorem pairs_filter_snd_length (xs : List SurveyRec) (c : String) :
    ((xs.filterMap pairFn).filter (fun p => p.2 = c)).length =
      (xs.filter (fun x => decide (x.2 = some c) && x.1.isSome)).length := by
  induction xs with
  | nil => rfl
  | cons x rest ih =>
      rcases x with ⟨_ | a, _ | b⟩
      · simp [pairFn, List.filterMap_cons, List.filter_cons, ih]
      · simp [pairFn, List.filterMap_cons, List.filter_cons, ih]
      · simp [pairFn, List.filterMap_cons, List.filter_cons, ih]
      · by_cases hb : b = c
        · subst hb
          simp [pairFn, List.filterMap_cons, List.filter_cons, ih]
        · simp [pairFn, List.filterMap_cons, List.filter_cons, ih, hb]

theorem sumRowCells_crosstabFromDb (db : List SurveyRec)
    (pred : SurveyRec → Bool) (r : String) :
    sumRowCells (crosstabFromDb db pred) r =
      ((db.filter pred).filter
        (fun x => decide (x.1 = some r) && x.2.isSome)).length := by
  have hm := marginal_keys (recordVals db pred (fun x => x.2))
  have hcols_eq : (crosstabFromDb db pred).cols =
      (mapNormalize (sortByCountDesc
        (groupCounts (recordVals db pred (fun x => x.2))))).map Prod.fst := rfl
  have hnd : (crosstabFromDb db pred).cols.Nodup := by
    rw [hcols_eq]
    exact hm.1
  have hcov : ∀ x ∈ ((recordPairs db pred).filter
      (fun p => p.1 = r)).map (fun p => p.2),
      x ∈ (crosstabFromDb db pred).cols := by
    intro x hx
    rw [List.mem_map] at hx
    obtain ⟨p, hpf, hpx⟩ := hx
    rw [hcols_eq, hm.2]
    rw [← hpx]
    exact mem_recordPairs_snd db pred p (List.mem_of_mem_filter hpf)
  unfold sumRowCells
  have hstep : (crosstabFromDb db pred).cols.map
      (fun c => cellCount (crosstabFromDb db pred) r c) =
      (crosstabFromDb db pred).cols.map (fun c =>
        countOcc c (((recordPairs db pred).filter
          (fun p => p.1 = r)).map (fun p => p.2))) := by
    apply List.map_congr_left
    intro c _
    rw [cellCount_crosstabFromDb, count_pairs_fst]
  rw [hstep, sum_count_eq_length _ _ hnd hcov, List.length_map]
  exact pairs_filter_fst_length (db.filter pred) r

theorem sumColCells_crosstabFromDb (db : List SurveyRec)
    (pred : SurveyRec → Bool) (c : String) :
    sumColCells (crosstabFromDb db pred) c =
      ((db.filter pred).filter
        (fun x => decide (x.2 = some c) && x.1.isSome)).length := by
  have hm := marginal_keys (recordVals db pred (fun x => x.1))
  have hrows_eq : (crosstabFromDb db pred).rows =
      (mapNormalize (sortByCountDesc
        (groupCounts (recordVals db pred (fun x => x.1))))).map Prod.fst := rfl
  have hnd : (crosstabFromDb db pred).rows.Nodup := by
    rw [hrows_eq]
    exact hm.1
  have hcov : ∀ x ∈ ((recordPairs db pred).filter
      (fun p => p.2 = c)).map (fun p => p.1),
      x ∈ (crosstabFromDb db pred).rows := by
    intro x hx
    rw [List.mem_map] at hx
    obtain ⟨p, hpf, hpx⟩ := hx
    rw [hrows_eq, hm.2]
    rw [← hpx]
    exact mem_recordPairs_fst db pred p (List.mem_of_mem_filter hpf)
  unfold sumColCells
  have hstep : (crosstabFromDb db pred).rows.map
      (fun r => cellCount (crosstabFromDb db pred) r c) =
      (crosstabFromDb db pred).rows.map (fun r =>
        countOcc r (((recordPairs db pred).filter
          (fun p => p.2 = c)).map (fun p => p.1))) := by
    apply List.map_congr_left
    intro r _
    rw [cellCount_crosstabFromDb, count_pairs_snd]
  rw [hstep, sum_count_eq_length _ _ hnd hcov, List.length_map]
  exact pairs_filter_snd_length (db.filter pred) c

/-- C1 (counterexample): over the database
`[(A, NULL), (B, X)]` with no filters active, the detail result is
non-empty (so the code really assembles a Matrix), row `A` appears in
the Matrix - the row-totals query only requires the row dimension
non-NULL - with `rowTotals[A] = 1`, yet every cell of row `A` is 0
because the detail query additionally requires the column dimension
non-NULL; the cells of row `A` therefore sum to 0, not to
`rowTotals[A]`. -/
theorem crosstab_row_sum_counterexample :
    (detailQueryRows [(some "A", none), (some "B", some "X")]
      (fun _ => true)).length = 1 ∧
    "A" ∈ (crosstabFromDb [(some "A", none), (some "B", some "X")]
      (fun _ => true)).rows ∧
    sumRowCells (crosstabFromDb [(some "A", none), (some "B", some "X")]
      (fun _ => true)) "A" = 0 ∧
    rowTotalOf (crosstabFromDb [(some "A", none), (some "B", some "X")]
      (fun _ => true)) "A" = 1 := by
  refine ⟨rfl, by decide, rfl, rfl⟩

/-- C1 (amended): for a non-multi-valued pivot pair, the cells of row
`r` sum to the number of filtered records whose row value is `r` AND
whose column value is non-NULL (symmetrically for columns); this equals
`rowTotals[r]` exactly when every filtered record with row value `r`
also has a non-NULL column value - records that are non-NULL on the row
dimension but NULL on the column dimension are counted in `rowTotals`
but in no cell, so for them the claimed invariant fails. -/
theorem crosstab_marginal_sum_amended (db : List SurveyRec)
    (pred : SurveyRec → Bool) (r c : String) :
    (sumRowCells (crosstabFromDb db pred) r =
      ((db.filter pred).filter
        (fun x => decide (x.1 = some r) && x.2.isSome)).length) ∧
    (sumColCells (crosstabFromDb db pred) c =
      ((db.filter pred).filter
        (fun x => decide (x.2 = some c) && x.1.isSome)).length) ∧
    ((∀ x ∈ db, pred x = true → x.1 = some r → x.2.isSome = true) →
      sumRowCells (crosstabFromDb db pred) r =
        rowTotalOf (crosstabFromDb db pred) r) ∧
    ((∀ x ∈ db, pred x = true → x.2 = some c → x.1.isSome = true) →
      sumColCells (crosstabFromDb db pred) c =
        colTotalOf (crosstabFromDb db pred) c) := by
  refine ⟨sumRowCells_crosstabFromDb db pred r,
    sumColCells_crosstabFromDb db pred c, ?_, ?_⟩
  · intro h
    rw [sumRowCells_crosstabFromDb, rowTotalOf_crosstabFromDb]
    unfold recordVals
    rw [recordVals_count]
    have hfc : (db.filter pred).filter
        (fun x => decide (x.1 = some r) && x.2.isSome) =
        (db.filter pred).filter (fun x => x.1 = some r) := by
      apply List.filter_congr
      intro x hx
      have hxdb : x ∈ db := List.mem_of_mem_filter hx
      have hxp : pred x = true := (List.mem_filter.mp hx).2
      by_cases hr : x.1 = some r
      · simp [hr, h x hxdb hxp hr]
      · simp [hr]
    rw [hfc]
  · intro h
    rw [sumColCells_crosstabFromDb, colTotalOf_crosstabFromDb]
    unfold recordVals
    rw [recordVals_count]
    have hfc : (db.filter pred).filter
        (fun x => decide (x.2 = some c) && x.1.isSome) =
        (db.filter pred).filter (fun x => x.2 = some c) := by
      apply List.filter_congr
      intro x hx
      have hxdb : x ∈ db := List.mem_of_mem_filter hx
      have hxp : pred x = true := (List.mem_filter.mp hx).2
      by_cases hc : x.2 = some c
      · simp [hc, h x hxdb hxp hc]
      · simp [hc]
    rw [hfc]

/-- C1 witness: the amended theorem applied at the counterexample's
database for row `B`, all of whose records are non-NULL on the column
dimension, so there the sum does equal the row total. -/
theorem crosstab_marginal_sum_amended_witness :
    sumRowCells (crosstabFromDb [(some "A", none), (some "B", some "X")]
      (fun _ => true)) "B" =
      rowTotalOf (crosstabFromDb [(some "A", none), (some "B", some "X")]
        (fun _ => true)) "B" :=
  (crosstab_marginal_sum_amended [(some "A", none), (some "B", some "X")]
    (fun _ => true) "B" "X").2.2.1 (by decide)

end SurveyApp
